import Mathlib

/-!
Formal model of the user-profile HTTP service in src/main.js: a single-process
CRUD server over an ordered list of user records, guarded by a static bearer
token, with full-file JSON persistence on every mutation.

The embedding is shallow: the request handler becomes a pure function from a
request and a server state (in-memory collection plus persisted file contents)
to a response and a new server state; the pretty-printed JSON serialization
written by saveUsers and the JSON parse performed at startup become executable
character-level functions.
-/

namespace UserSvc

/-- A user record, as created by the POST handler in src/main.js: an integer
id, a name, an email, and a role string. -/
structure User where
  id : Nat
  name : String
  email : String
  role : String
deriving DecidableEq, Repr

/-! ## Serialization: the model of JSON.stringify(users, null, 2) -/

/-- Decimal digit characters of a natural number, most significant first;
this is how JSON.stringify prints the numeric id field. -/
def natToChars (n : Nat) : List Char :=
  if n = 0 then ['0'] else ((Nat.digits 10 n).reverse.map Nat.digitChar)

/-- The escape sequence JSON.stringify emits for a single character inside a
string literal: quote and backslash get a backslash escape, the common control
characters get their two-character escapes, the remaining control characters
get a \u00XX escape with lowercase hex, and every other character is emitted
verbatim. -/
def escChar (c : Char) : List Char :=
  if c = '"' then ['\\', '"']
  else if c = '\\' then ['\\', '\\']
  else if c = '\x08' then ['\\', 'b']
  else if c = '\x09' then ['\\', 't']
  else if c = '\x0a' then ['\\', 'n']
  else if c = '\x0c' then ['\\', 'f']
  else if c = '\x0d' then ['\\', 'r']
  else if c.toNat < 32 then
    ['\\', 'u', '0', '0', Nat.digitChar (c.toNat / 16), Nat.digitChar (c.toNat % 16)]
  else [c]

/-- Escape a whole string body (list of characters) for a JSON string literal. -/
def escList (s : List Char) : List Char :=
  s.foldr (fun c r => escChar c ++ r) []

/-- The newline-plus-indent emitted before array elements at depth 1. -/
def ind2 : List Char := ['\n', ' ', ' ']

/-- The newline-plus-indent emitted before object keys at depth 2. -/
def ind4 : List Char := ['\n', ' ', ' ', ' ', ' ']

/-- The id key without its opening quote. -/
def idKtail : List Char := ['i', 'd', '"']

/-- The name key without its opening quote. -/
def nameKtail : List Char := ['n', 'a', 'm', 'e', '"']

/-- The email key without its opening quote. -/
def emailKtail : List Char := ['e', 'm', 'a', 'i', 'l', '"']

/-- The role key without its opening quote. -/
def roleKtail : List Char := ['r', 'o', 'l', 'e', '"']

/-- The quoted id key as it appears in the file. -/
def kIdKey : List Char := '"' :: idKtail

/-- The quoted name key as it appears in the file. -/
def kNameKey : List Char := '"' :: nameKtail

/-- The quoted email key as it appears in the file. -/
def kEmailKey : List Char := '"' :: emailKtail

/-- The quoted role key as it appears in the file. -/
def kRoleKey : List Char := '"' :: roleKtail

/-- The opening of a serialized user object: brace, indent, the id key, a
colon and space, and the decimal id, followed by the given continuation. -/
def serIdSeg (n : Nat) (r : List Char) : List Char :=
  '\x7b' :: (ind4 ++ ('"' :: (idKtail ++ (':' :: ' ' :: (natToChars n ++ r)))))

/-- One string-valued field of a serialized user object: comma, indent, the
quoted key, a colon and space, and the escaped quoted value, followed by the
given continuation. -/
def serFieldSeg (ktail : List Char) (v : String) (r : List Char) : List Char :=
  ',' :: (ind4 ++ ('"' :: (ktail ++ (':' :: ' ' :: '"' ::
    (escList v.data ++ ('"' :: r))))))

/-- The end of a serialized user object: newline, the two-space indent and
the closing brace, followed by the given continuation. -/
def serClose (r : List Char) : List Char := '\n' :: ' ' :: ' ' :: '\x7d' :: r

/-- One user object exactly as JSON.stringify(users, null, 2) prints it as an
array element: keys in insertion order id, name, email, role, a colon and a
space after each key, inner lines indented four spaces and the closing brace
indented two. -/
def serUser (u : User) : List Char :=
  serIdSeg u.id (serFieldSeg nameKtail u.name (serFieldSeg emailKtail u.email
    (serFieldSeg roleKtail u.role (serClose []))))

/-- The serialized text following the first array element: a comma and indent
before every further element and the final newline and closing bracket. -/
def serTail : List User → List Char
  | [] => ['\n', ']']
  | u :: us => ',' :: (ind2 ++ (serUser u ++ serTail us))

/-- The full serialized array: brackets on their own lines around indented
elements, and the two-character text for the empty array. -/
def serUsers : List User → List Char
  | [] => ['[', ']']
  | u :: us => '[' :: (ind2 ++ (serUser u ++ serTail us))

/-- The file contents written by saveUsers: JSON.stringify(users, null, 2). -/
def serializeUsers (us : List User) : String := String.mk (serUsers us)

/-! ## Parsing: the model of JSON.parse at startup, specialized to the
array-of-user-records shape the service itself persists. -/

/-- JSON whitespace characters. -/
def jsonWs (c : Char) : Bool := c = ' ' || c = '\t' || c = '\n' || c = '\r'

/-- Drop leading JSON whitespace. -/
def skipWs : List Char → List Char
  | [] => []
  | c :: cs => if jsonWs c then skipWs cs else c :: cs

/-- Consume an expected literal token from the input, or fail. -/
def expectLit : List Char → List Char → Option (List Char)
  | [], l => some l
  | _ :: _, [] => none
  | k :: ks, c :: cs => if c = k then expectLit ks cs else none

/-- Accumulate a run of leading decimal digits into a number. -/
def parseNatAux : List Char → Nat → Nat × List Char
  | [], acc => (acc, [])
  | c :: cs, acc =>
    if c.isDigit then parseNatAux cs (acc * 10 + (c.toNat - 48)) else (acc, c :: cs)

/-- Parse a nonnegative decimal number; fails unless a digit is first. -/
def parseNat : List Char → Option (Nat × List Char)
  | [] => none
  | c :: cs => if c.isDigit then some (parseNatAux (c :: cs) 0) else none

/-- Does the input not continue with a decimal digit? Where this holds, a
digit run just parsed cannot extend further. -/
def headNotDigit : List Char → Bool
  | [] => true
  | c :: _ => !c.isDigit

/-- Numeric value of a hexadecimal digit character, either case. -/
def hexDigitVal (c : Char) : Option Nat :=
  if '0' ≤ c ∧ c ≤ '9' then some (c.toNat - 48)
  else if 'a' ≤ c ∧ c ≤ 'f' then some (c.toNat - 87)
  else if 'A' ≤ c ∧ c ≤ 'F' then some (c.toNat - 55)
  else none

/-- The character denoted by a single-character JSON escape. -/
def unescapeChar (e : Char) : Option Char :=
  if e = '"' then some '"'
  else if e = '\\' then some '\\'
  else if e = '/' then some '/'
  else if e = 'b' then some '\x08'
  else if e = 't' then some '\x09'
  else if e = 'n' then some '\x0a'
  else if e = 'f' then some '\x0c'
  else if e = 'r' then some '\x0d'
  else none

/-- Parse the body of a JSON string literal after the opening quote: literal
characters up to the closing quote, backslash escapes, and \uXXXX escapes;
raw control characters are rejected, as JSON.parse rejects them. -/
def parseStrAux : List Char → Option (List Char × List Char)
  | [] => none
  | c :: cs =>
    if c = '"' then some ([], cs)
    else if c = '\\' then
      match cs with
      | 'u' :: h1 :: h2 :: h3 :: h4 :: cs' =>
        match hexDigitVal h1, hexDigitVal h2, hexDigitVal h3, hexDigitVal h4 with
        | some a, some b, some c2, some d =>
          let code := ((a * 16 + b) * 16 + c2) * 16 + d
          if Nat.isValidChar code then
            (parseStrAux cs').map (fun p => (Char.ofNat code :: p.1, p.2))
          else none
        | _, _, _, _ => none
      | e :: cs' =>
        match unescapeChar e with
        | some c1 => (parseStrAux cs').map (fun p => (c1 :: p.1, p.2))
        | none => none
      | [] => none
    else if c.toNat < 32 then none
    else (parseStrAux cs).map (fun p => (c :: p.1, p.2))

/-- Parse a complete JSON string literal, opening quote included. -/
def parseJString (l : List Char) : Option (String × List Char) :=
  match l with
  | '"' :: l1 => (parseStrAux l1).map (fun p => (String.mk p.1, p.2))
  | _ => none

/-- Consume a literal token after skipping leading whitespace. -/
def parseTok (tok : List Char) (l : List Char) : Option (List Char) :=
  expectLit tok (skipWs l)

/-- Parse the opening brace, the id key, the colon and the numeric id. -/
def parseIdField (l : List Char) : Option (Nat × List Char) := do
  let l ← expectLit ['\x7b'] l
  let l ← parseTok kIdKey l
  let l ← parseTok [':'] l
  parseNat (skipWs l)

/-- Parse a comma, the given key, a colon, and a string value. -/
def parseStrField (key : List Char) (l : List Char) : Option (String × List Char) := do
  let l ← parseTok [','] l
  let l ← parseTok key l
  let l ← parseTok [':'] l
  parseJString (skipWs l)

/-- Parse one user object: braces, the four keys in the order the service
writes them, a number for id and string literals for the other fields, with
whitespace allowed around the punctuation. -/
def parseUser (l : List Char) : Option (User × List Char) := do
  let (uid, l) ← parseIdField l
  let (nm, l) ← parseStrField kNameKey l
  let (em, l) ← parseStrField kEmailKey l
  let (rl, l) ← parseStrField kRoleKey l
  let l ← parseTok ['\x7d'] l
  return ({ id := uid, name := nm, email := em, role := rl }, l)

/-- Parse a comma-separated sequence of user objects up to the closing
bracket; the fuel argument bounds the number of elements and only has to be
at least the element count for the parse to succeed. -/
def parseItems : Nat → List Char → Option (List User × List Char)
  | 0, _ => none
  | fuel + 1, l => do
    let (u, l1) ← parseUser (skipWs l)
    match skipWs l1 with
    | ',' :: l2 => do
      let (us, l3) ← parseItems fuel l2
      pure (u :: us, l3)
    | ']' :: l2 => pure ([u], l2)
    | _ => none

/-- Reload the persisted file: parse the whole contents as a JSON array of
user records, requiring nothing but whitespace after it. -/
def parseUsersFile (s : String) : Option (List User) :=
  match skipWs s.data with
  | '[' :: l =>
    match l with
    | ']' :: l2 => if skipWs l2 = [] then some [] else none
    | l1 =>
      match parseItems (l1.length + 1) l1 with
      | some (us, l2) => if skipWs l2 = [] then some us else none
      | none => none
  | _ => none

/-! ## The HTTP service model -/

/-- The static shared secret AUTH_TOKEN in src/main.js. -/
def authToken : String := "my-secret-token"

/-- Request methods; other stands for any verb besides the five the router
inspects, such as PATCH. -/
inductive Method
  | get | post | put | delete | options | other
deriving DecidableEq, Repr

/-- The parsed JSON request body as the handlers use it: each of the three
recognized fields is either absent (the key is missing from the JSON object,
or the body was malformed and replaced by the empty object) or a string
value. -/
structure Body where
  name : Option String
  email : Option String
  role : Option String
deriving DecidableEq, Repr

/-- An incoming HTTP request as the handler sees it: the method, the parsed
pathname, the id query parameter (absent, or its raw string value), the raw
Authorization header if present, and the parsed body. -/
structure Request where
  method : Method
  pathname : String
  queryId : Option String
  authorization : Option String
  body : Body
deriving DecidableEq, Repr

/-- The JSON payloads the service writes in responses. -/
inductive RespBody
  | empty
  | userB (u : User)
  | usersB (us : List User)
  | errorB (msg : String)
  | deletedB (msg : String) (u : User)
deriving DecidableEq, Repr

/-- An HTTP response: status code and JSON payload. -/
structure Response where
  status : Nat
  body : RespBody
deriving DecidableEq, Repr

/-- The mutable state of the process: the in-memory users array and the
contents of the users.json file. -/
structure ServerState where
  users : List User
  file : String
deriving DecidableEq, Repr

/-- The check in isAuthenticated: the Authorization header must equal the
literal string Bearer followed by a space and the static token. -/
def isAuthenticated (authHeader : Option String) : Bool :=
  authHeader == some ("Bearer " ++ authToken)

/-- JavaScript truthiness of an optional string value: an absent value and
the empty string are falsy, every other string is truthy. -/
def truthyStr : Option String → Bool
  | some s => s != ""
  | none => false

/-- Numeric reading of a query-parameter string: the value of an all-digit
string, and no value otherwise. This models the number a decimal digit
string coerces to in the loose comparison u.id == query.id. -/
def strToNat (s : String) : Option Nat :=
  match parseNat s.data with
  | some (n, []) => some n
  | _ => none

/-- The loose comparison u.id == query.id the handlers use to locate a
record: the query string is read as a decimal number and compared with the
record id. -/
def idEq (uid : Nat) (q : String) : Bool :=
  strToNat q == some uid

/-- The id assigned to a new record: one more than the largest existing id,
or 1 when the collection is empty, exactly as the POST handler computes it. -/
def nextId (us : List User) : Nat :=
  if 0 < us.length then (us.map (fun u => u.id)).foldl max 0 + 1 else 1

/-- The field updates the PUT handler performs in place: each of the three
fields is overwritten only when the corresponding body field is truthy. -/
def updateFields (b : Body) (u : User) : User :=
  { u with
    name := if truthyStr b.name then b.name.getD "" else u.name
    email := if truthyStr b.email then b.email.getD "" else u.email
    role := if truthyStr b.role then b.role.getD "" else u.role }

/-- findIndex plus in-place field mutation, as the PUT handler does it:
locate the first record matching the query id, update its truthy fields,
and return the updated record together with the updated collection. -/
def updateById (q : String) (b : Body) : List User → Option (User × List User)
  | [] => none
  | u :: us =>
    if idEq u.id q then
      some (updateFields b u, updateFields b u :: us)
    else
      (updateById q b us).map (fun p => (p.1, u :: p.2))

/-- findIndex plus splice, as the DELETE handler does it: locate the first
record matching the query id, remove it, and return the removed record
together with the remaining collection. -/
def deleteById (q : String) : List User → Option (User × List User)
  | [] => none
  | u :: us =>
    if idEq u.id q then some (u, us)
    else (deleteById q us).map (fun p => (p.1, u :: p.2))

/-- The request handler of src/main.js as a pure state transformer: CORS
preflight short-circuit, then the bearer-token check, then routing on the
pathname and method, with every mutating branch rewriting the persisted file
from the whole in-memory collection before responding. -/
def handle (st : ServerState) (req : Request) : Response × ServerState :=
  if req.method = Method.options then
    (⟨200, RespBody.empty⟩, st)
  else if !isAuthenticated req.authorization then
    (⟨401, RespBody.errorB "Unauthorized. Use Bearer token."⟩, st)
  else if req.pathname = "/users" then
    if req.method = Method.get then
      if truthyStr req.queryId then
        match st.users.find? (fun u => idEq u.id (req.queryId.getD "")) with
        | some u => (⟨200, RespBody.userB u⟩, st)
        | none => (⟨404, RespBody.errorB "User not found"⟩, st)
      else
        (⟨200, RespBody.usersB st.users⟩, st)
    else if req.method = Method.post then
      if !truthyStr req.body.name || !truthyStr req.body.email then
        (⟨400, RespBody.errorB "Name and email are required"⟩, st)
      else
        let newUser : User :=
          { id := nextId st.users
            name := req.body.name.getD ""
            email := req.body.email.getD ""
            role := if truthyStr req.body.role then req.body.role.getD "" else "viewer" }
        let users' := st.users ++ [newUser]
        (⟨201, RespBody.userB newUser⟩, ⟨users', serializeUsers users'⟩)
    else if req.method = Method.put then
      if !truthyStr req.queryId then
        (⟨400, RespBody.errorB "User ID is required"⟩, st)
      else
        match updateById (req.queryId.getD "") req.body st.users with
        | none => (⟨404, RespBody.errorB "User not found"⟩, st)
        | some (u', users') => (⟨200, RespBody.userB u'⟩, ⟨users', serializeUsers users'⟩)
    else if req.method = Method.delete then
      if !truthyStr req.queryId then
        (⟨400, RespBody.errorB "User ID is required"⟩, st)
      else
        match deleteById (req.queryId.getD "") st.users with
        | none => (⟨404, RespBody.errorB "User not found"⟩, st)
        | some (u, users') =>
          (⟨200, RespBody.deletedB "User deleted" u⟩, ⟨users', serializeUsers users'⟩)
    else
      (⟨405, RespBody.errorB "Method not allowed"⟩, st)
  else
    (⟨404, RespBody.errorB "Route not found"⟩, st)

/-- A whole session: fold the handler's state transition over a request
sequence, ignoring responses. -/
def run (st : ServerState) (reqs : List Request) : ServerState :=
  reqs.foldl (fun s r => (handle s r).2) st

/-! ## Concrete sample data -/

/-- A well-formed Authorization header for the static token. -/
def okAuth : Option String := some "Bearer my-secret-token"

/-- A sample record with id 1. -/
def sampleUser : User := ⟨1, "Ana", "a@x.com", "viewer"⟩

/-- A sample record with id 2. -/
def sampleUser2 : User := ⟨2, "Bob", "b@x.com", "admin"⟩

/-- A sample server state holding the two sample records, with the file in
sync. -/
def sampleState : ServerState :=
  ⟨[sampleUser, sampleUser2], serializeUsers [sampleUser, sampleUser2]⟩

/-- A valid creation request. -/
def createReq : Request :=
  ⟨Method.post, "/users", none, okAuth, ⟨some "Carol", some "c@x.com", none⟩⟩

/-- A CORS preflight request. -/
def optionsReq : Request :=
  ⟨Method.options, "/users", none, none, ⟨none, none, none⟩⟩

/-- A request without a valid Authorization header. -/
def badAuthReq : Request :=
  ⟨Method.get, "/users", none, some "Bearer wrong", ⟨none, none, none⟩⟩

/-- A deletion request for id 1. -/
def deleteReq : Request :=
  ⟨Method.delete, "/users", some "1", okAuth, ⟨none, none, none⟩⟩

/-- An update request for id 2 setting only the role. -/
def updateRoleReq : Request :=
  ⟨Method.put, "/users", some "2", okAuth, ⟨none, none, some "editor"⟩⟩

/-- An update request for id 1 whose body maps name to the empty string. -/
def cexPutReq : Request :=
  ⟨Method.put, "/users", some "1", okAuth, ⟨some "", none, none⟩⟩

/-- A creation request whose body has both keys but an empty email. -/
def cexPostReq : Request :=
  ⟨Method.post, "/users", none, okAuth, ⟨some "X", some "", none⟩⟩

/-- A creation request whose body maps role to the empty string. -/
def emptyRoleReq : Request :=
  ⟨Method.post, "/users", none, okAuth, ⟨some "Dan", some "d@x.com", some ""⟩⟩

/-! ## Round-trip development -/

theorem serializeUsers_sample :
    serializeUsers [⟨1, "Ana", "a@x.com", "viewer"⟩] =
      "[\n  \x7b\n    \"id\": 1,\n    \"name\": \"Ana\",\n    \"email\": \"a@x.com\",\n    \"role\": \"viewer\"\n  \x7d\n]" := by
  have hd : Nat.digits 10 1 = [1] := by
    rw [Nat.digits_def' (by norm_num : (1 : ℕ) < 10) Nat.one_pos]
    norm_num
  have h1 : natToChars 1 = ['1'] := by
    rw [natToChars, if_neg one_ne_zero, hd]
    rfl
  simp only [serializeUsers, serUsers, serUser, serIdSeg, serFieldSeg, serClose,
    serTail, h1]
  rfl

/-! ## Decimal printing and parsing are inverse -/

theorem digitChar_isDigit : ∀ d < 10, (Nat.digitChar d).isDigit = true := by decide

theorem digitChar_toNat : ∀ d < 10, (Nat.digitChar d).toNat - 48 = d := by decide

theorem digitChar_not_ws : ∀ d < 10, jsonWs (Nat.digitChar d) = false := by decide

theorem parseNatAux_append (ds : List Nat) (hds : ∀ d ∈ ds, d < 10)
    (r : List Char) (hr : headNotDigit r = true) :
    ∀ acc, parseNatAux (ds.map Nat.digitChar ++ r) acc =
      (ds.foldl (fun a d => a * 10 + d) acc, r) := by
  induction ds with
  | nil =>
    intro acc
    cases r with
    | nil => simp [parseNatAux]
    | cons c cs =>
      have hc : c.isDigit = false := by
        simpa [headNotDigit] using hr
      simp [parseNatAux, hc]
  | cons d ds ih =>
    intro acc
    have hd : d < 10 := hds d (by simp)
    have h1 := digitChar_isDigit d hd
    have h2 := digitChar_toNat d hd
    simp only [List.map_cons, List.cons_append, parseNatAux, h1, if_true, h2,
      List.foldl_cons]
    exact ih (fun x hx => hds x (by simp [hx])) _

theorem foldr_eq_ofDigits (l : List Nat) :
    l.foldr (fun d a => a * 10 + d) 0 = Nat.ofDigits 10 l := by
  induction l with
  | nil => simp [Nat.ofDigits]
  | cons d t ih => simp [Nat.ofDigits_cons, ih]; ring

theorem foldl_reverse_digits (n : Nat) :
    ((Nat.digits 10 n).reverse).foldl (fun a d => a * 10 + d) 0 = n := by
  rw [List.foldl_reverse]
  calc (Nat.digits 10 n).foldr (fun x y => y * 10 + x) 0
      = (Nat.digits 10 n).foldr (fun d a => a * 10 + d) 0 := rfl
    _ = Nat.ofDigits 10 (Nat.digits 10 n) := foldr_eq_ofDigits _
    _ = n := Nat.ofDigits_digits 10 n

theorem natToChars_spec (n : Nat) :
    ∃ ds : List Nat, natToChars n = ds.map Nat.digitChar ∧ ds ≠ [] ∧
      (∀ d ∈ ds, d < 10) ∧ ds.foldl (fun a d => a * 10 + d) 0 = n := by
  by_cases h : n = 0
  · subst h
    exact ⟨[0], by decide, by decide, by decide, by decide⟩
  · refine ⟨(Nat.digits 10 n).reverse, by simp [natToChars, h], ?_, ?_, ?_⟩
    · simpa using (Nat.digits_ne_nil_iff_ne_zero).2 h
    · intro d hd
      exact Nat.digits_lt_base (by norm_num) (List.mem_reverse.1 hd)
    · exact foldl_reverse_digits n

theorem parseNat_natToChars (n : Nat) (r : List Char) (hr : headNotDigit r = true) :
    parseNat (natToChars n ++ r) = some (n, r) := by
  obtain ⟨ds, hds, hne, hlt, hval⟩ := natToChars_spec n
  rw [hds]
  cases ds with
  | nil => exact absurd rfl hne
  | cons d ds' =>
    have hd : d < 10 := hlt d (by simp)
    have h1 := digitChar_isDigit d hd
    simp only [List.map_cons, List.cons_append, parseNat, h1, if_true]
    have h3 := parseNatAux_append (d :: ds') hlt r hr 0
    simp only [List.map_cons, List.cons_append] at h3
    rw [h3, hval]

theorem skipWs_natToChars (n : Nat) (l : List Char) :
    skipWs (natToChars n ++ l) = natToChars n ++ l := by
  obtain ⟨ds, hds, hne, hlt, -⟩ := natToChars_spec n
  rw [hds]
  cases ds with
  | nil => exact absurd rfl hne
  | cons d ds' =>
    have hd : d < 10 := hlt d (by simp)
    simp [skipWs, digitChar_not_ws d hd]

/-! ## String escaping and unescaping are inverse -/

theorem escList_cons (c : Char) (s : List Char) :
    escList (c :: s) = escChar c ++ escList s := rfl

theorem hexDigitVal_digitChar : ∀ d < 16, hexDigitVal (Nat.digitChar d) = some d := by
  decide

theorem parseStrAux_escList (s : List Char) (r : List Char) :
    parseStrAux (escList s ++ '"' :: r) = some (s, r) := by
  induction s with
  | nil =>
    show parseStrAux ('"' :: r) = some ([], r)
    rw [parseStrAux.eq_def]
    simp
  | cons c s ih =>
    by_cases h1 : c = '"'
    · subst h1
      rw [show escList ('"' :: s) ++ '"' :: r = '\\' :: '"' :: (escList s ++ '"' :: r) by
        simp [escList_cons, escChar]]
      rw [show parseStrAux ('\\' :: '"' :: (escList s ++ '"' :: r)) =
        (parseStrAux (escList s ++ '"' :: r)).map (fun p => ('"' :: p.1, p.2)) from rfl]
      rw [ih]
      rfl
    · by_cases h2 : c = '\\'
      · subst h2
        rw [show escList ('\\' :: s) ++ '"' :: r = '\\' :: '\\' :: (escList s ++ '"' :: r) by
          simp [escList_cons, escChar]]
        rw [show parseStrAux ('\\' :: '\\' :: (escList s ++ '"' :: r)) =
          (parseStrAux (escList s ++ '"' :: r)).map (fun p => ('\\' :: p.1, p.2)) from rfl]
        rw [ih]
        rfl
      · by_cases h3 : c = '\x08'
        · subst h3
          rw [show escList ('\x08' :: s) ++ '"' :: r = '\\' :: 'b' :: (escList s ++ '"' :: r) by
            simp [escList_cons, escChar]]
          rw [show parseStrAux ('\\' :: 'b' :: (escList s ++ '"' :: r)) =
            (parseStrAux (escList s ++ '"' :: r)).map (fun p => ('\x08' :: p.1, p.2)) from rfl]
          rw [ih]
          rfl
        · by_cases h4 : c = '\x09'
          · subst h4
            rw [show escList ('\x09' :: s) ++ '"' :: r = '\\' :: 't' :: (escList s ++ '"' :: r) by
              simp [escList_cons, escChar]]
            rw [show parseStrAux ('\\' :: 't' :: (escList s ++ '"' :: r)) =
              (parseStrAux (escList s ++ '"' :: r)).map (fun p => ('\x09' :: p.1, p.2)) from rfl]
            rw [ih]
            rfl
          · by_cases h5 : c = '\x0a'
            · subst h5
              rw [show escList ('\x0a' :: s) ++ '"' :: r =
                '\\' :: 'n' :: (escList s ++ '"' :: r) by simp [escList_cons, escChar]]
              rw [show parseStrAux ('\\' :: 'n' :: (escList s ++ '"' :: r)) =
                (parseStrAux (escList s ++ '"' :: r)).map (fun p => ('\x0a' :: p.1, p.2)) from
                rfl]
              rw [ih]
              rfl
            · by_cases h6 : c = '\x0c'
              · subst h6
                rw [show escList ('\x0c' :: s) ++ '"' :: r =
                  '\\' :: 'f' :: (escList s ++ '"' :: r) by simp [escList_cons, escChar]]
                rw [show parseStrAux ('\\' :: 'f' :: (escList s ++ '"' :: r)) =
                  (parseStrAux (escList s ++ '"' :: r)).map (fun p => ('\x0c' :: p.1, p.2)) from
                  rfl]
                rw [ih]
                rfl
              · by_cases h7 : c = '\x0d'
                · subst h7
                  rw [show escList ('\x0d' :: s) ++ '"' :: r =
                    '\\' :: 'r' :: (escList s ++ '"' :: r) by simp [escList_cons, escChar]]
                  rw [show parseStrAux ('\\' :: 'r' :: (escList s ++ '"' :: r)) =
                    (parseStrAux (escList s ++ '"' :: r)).map
                      (fun p => ('\x0d' :: p.1, p.2)) from rfl]
                  rw [ih]
                  rfl
                · by_cases h8 : c.toNat < 32
                  · have e1 : escList (c :: s) ++ '"' :: r =
                        '\\' :: 'u' :: '0' :: '0' :: Nat.digitChar (c.toNat / 16) ::
                          Nat.digitChar (c.toNat % 16) :: (escList s ++ '"' :: r) := by
                      rw [escList_cons, escChar]
                      rw [if_neg h1, if_neg h2, if_neg h3, if_neg h4, if_neg h5, if_neg h6,
                        if_neg h7, if_pos h8]
                      simp
                    rw [e1]
                    have g0 : hexDigitVal '0' = some 0 := by decide
                    have ghi : hexDigitVal (Nat.digitChar (c.toNat / 16)) =
                        some (c.toNat / 16) := hexDigitVal_digitChar _ (by omega)
                    have glo : hexDigitVal (Nat.digitChar (c.toNat % 16)) =
                        some (c.toNat % 16) := hexDigitVal_digitChar _ (by omega)
                    have e2 : parseStrAux ('\\' :: 'u' :: '0' :: '0' ::
                        Nat.digitChar (c.toNat / 16) :: Nat.digitChar (c.toNat % 16) ::
                        (escList s ++ '"' :: r)) =
                        (match hexDigitVal '0', hexDigitVal '0',
                          hexDigitVal (Nat.digitChar (c.toNat / 16)),
                          hexDigitVal (Nat.digitChar (c.toNat % 16)) with
                        | some a, some b, some c2, some d =>
                          let code := ((a * 16 + b) * 16 + c2) * 16 + d
                          if Nat.isValidChar code then
                            (parseStrAux (escList s ++ '"' :: r)).map
                              (fun p => (Char.ofNat code :: p.1, p.2))
                          else none
                        | _, _, _, _ => none) := rfl
                    rw [e2, g0, ghi, glo]
                    have hcode : ((0 * 16 + 0) * 16 + c.toNat / 16) * 16 + c.toNat % 16 =
                        c.toNat := by omega
                    simp only [hcode]
                    rw [if_pos (Or.inl (by omega : c.toNat < 55296))]
                    rw [ih]
                    simp [Char.ofNat_toNat]
                  · have e1 : escList (c :: s) ++ '"' :: r = c :: (escList s ++ '"' :: r) := by
                      rw [escList_cons, escChar]
                      rw [if_neg h1, if_neg h2, if_neg h3, if_neg h4, if_neg h5, if_neg h6,
                        if_neg h7, if_neg h8]
                      simp
                    rw [e1, parseStrAux.eq_def]
                    simp only []
                    rw [if_neg h1, if_neg h2, if_neg h8, ih]
                    rfl

/-! ## Parsing a serialized user array recovers it exactly -/

theorem bind_some_eq {α β : Type} (a : α) (f : α → Option β) :
    Bind.bind (some a) f = f a := rfl

theorem parseJString_escape (v : String) (r : List Char) :
    parseJString ('"' :: (escList v.data ++ '"' :: r)) = some (v, r) := by
  show (parseStrAux (escList v.data ++ '"' :: r)).map (fun p => (String.mk p.1, p.2)) =
    some (v, r)
  rw [parseStrAux_escList]
  rfl

theorem expectLit_self_append (k l : List Char) : expectLit k (k ++ l) = some l := by
  induction k with
  | nil => rfl
  | cons c cs ih => simp [expectLit, ih]

theorem parseIdField_seg (n : Nat) (k : List Char) (hk : headNotDigit k = true) :
    parseIdField (serIdSeg n k) = some (n, k) := by
  show parseNat (skipWs (natToChars n ++ k)) = some (n, k)
  rw [skipWs_natToChars, parseNat_natToChars n k hk]

theorem parseStrField_seg (kt : List Char) (v : String) (r : List Char) :
    parseStrField ('"' :: kt) (serFieldSeg kt v r) = some (v, r) := by
  show Option.bind
      (expectLit kt (kt ++ (':' :: ' ' :: '"' :: (escList v.data ++ ('"' :: r)))))
      (fun l => Option.bind (parseTok [':'] l) (fun l => parseJString (skipWs l))) =
    some (v, r)
  rw [expectLit_self_append]
  show parseJString ('"' :: (escList v.data ++ ('"' :: r))) = some (v, r)
  exact parseJString_escape v r

theorem parseTok_close (r : List Char) : parseTok ['\x7d'] (serClose r) = some r := rfl

theorem serIdSeg_append (n : Nat) (k r : List Char) :
    serIdSeg n k ++ r = serIdSeg n (k ++ r) := by
  simp [serIdSeg]

theorem serFieldSeg_append (kt : List Char) (v : String) (k r : List Char) :
    serFieldSeg kt v k ++ r = serFieldSeg kt v (k ++ r) := by
  simp [serFieldSeg]

theorem serClose_append (k r : List Char) : serClose k ++ r = serClose (k ++ r) := by
  simp [serClose]

theorem headNotDigit_serFieldSeg (kt : List Char) (v : String) (r : List Char) :
    headNotDigit (serFieldSeg kt v r) = true := rfl

theorem headNotDigit_serClose (r : List Char) : headNotDigit (serClose r) = true := rfl

theorem parseUser_round (u : User) (r : List Char) :
    parseUser (serUser u ++ r) = some (u, r) := by
  rw [serUser, serIdSeg_append, serFieldSeg_append, serFieldSeg_append, serFieldSeg_append,
    serClose_append]
  simp only [List.nil_append]
  simp only [parseUser, kNameKey, kEmailKey, kRoleKey]
  rw [parseIdField_seg u.id _ (headNotDigit_serFieldSeg _ _ _)]
  simp only [bind_some_eq]
  rw [parseStrField_seg]
  simp only [bind_some_eq]
  rw [parseStrField_seg]
  simp only [bind_some_eq]
  rw [parseStrField_seg]
  simp only [bind_some_eq]
  rw [parseTok_close]
  rfl

theorem skipWs_ind2_append (l : List Char) : skipWs (ind2 ++ l) = skipWs l := rfl

theorem skipWs_serIdSeg (n : Nat) (k : List Char) :
    skipWs (serIdSeg n k) = serIdSeg n k := rfl

theorem skipWs_serUser (u : User) (l : List Char) :
    skipWs (serUser u ++ l) = serUser u ++ l := by
  rw [serUser, serIdSeg_append, skipWs_serIdSeg]

theorem skipWs_comma (l : List Char) : skipWs (',' :: l) = ',' :: l := rfl

theorem parseItems_round (us : List User) :
    ∀ (u : User) (fuel : Nat), us.length < fuel →
      parseItems fuel (ind2 ++ (serUser u ++ serTail us)) = some (u :: us, []) := by
  induction us with
  | nil =>
    intro u fuel hf
    obtain ⟨f, rfl⟩ : ∃ f, fuel = f + 1 := ⟨fuel - 1, by omega⟩
    simp only [parseItems]
    rw [skipWs_ind2_append, skipWs_serUser, parseUser_round]
    simp only [bind_some_eq]
    rfl
  | cons v vs ih =>
    intro u fuel hf
    obtain ⟨f, rfl⟩ : ∃ f, fuel = f + 1 := ⟨fuel - 1, by omega⟩
    simp only [parseItems]
    rw [skipWs_ind2_append, skipWs_serUser, parseUser_round]
    simp only [bind_some_eq]
    show (match skipWs (serTail (v :: vs)) with
      | ',' :: l2 =>
        Option.bind (parseItems f l2) (fun p => pure (u :: p.1, p.2))
      | ']' :: l2 => pure ([u], l2)
      | _ => none : Option (List User × List Char)) = some (u :: v :: vs, [])
    rw [show serTail (v :: vs) = ',' :: (ind2 ++ (serUser v ++ serTail vs)) from rfl,
      skipWs_comma]
    show Option.bind (parseItems f (ind2 ++ (serUser v ++ serTail vs)))
      (fun p => pure (u :: p.1, p.2)) = some (u :: v :: vs, [])
    rw [ih v f (by simpa using Nat.lt_of_succ_lt_succ hf)]
    rfl

theorem serTail_length (us : List User) : us.length ≤ (serTail us).length := by
  induction us with
  | nil => simp [serTail]
  | cons v vs ih =>
    simp only [serTail, List.length_cons, List.length_append]
    omega

/-- C7: persisting the collection (serializing it to the file contents, as
saveUsers does) and then reloading (parsing the file, as the startup load
does) yields exactly the same ordered sequence of records, field for field. -/
theorem persist_reload_roundtrip (us : List User) :
    parseUsersFile (serializeUsers us) = some us := by
  cases us with
  | nil => rfl
  | cons u us =>
    show (match skipWs (serUsers (u :: us)) with
      | '[' :: l =>
        match l with
        | ']' :: l2 => if skipWs l2 = [] then some [] else none
        | l1 =>
          match parseItems (l1.length + 1) l1 with
          | some (us, l2) => if skipWs l2 = [] then some us else none
          | none => none
      | _ => none) = some (u :: us)
    rw [show serUsers (u :: us) = '[' :: (ind2 ++ (serUser u ++ serTail us)) from rfl]
    rw [show skipWs ('[' :: (ind2 ++ (serUser u ++ serTail us))) =
      '[' :: (ind2 ++ (serUser u ++ serTail us)) from rfl]
    show (match ind2 ++ (serUser u ++ serTail us) with
      | ']' :: l2 => if skipWs l2 = [] then some [] else none
      | l1 =>
        match parseItems (l1.length + 1) l1 with
        | some (us, l2) => if skipWs l2 = [] then some us else none
        | none => none) = some (u :: us)
    have hb : us.length < (ind2 ++ (serUser u ++ serTail us)).length + 1 := by
      have h1 := serTail_length us
      simp only [ind2, List.length_append, List.cons_append, List.length_cons]
      omega
    have h := parseItems_round us u ((ind2 ++ (serUser u ++ serTail us)).length + 1) hb
    rw [show (ind2 ++ (serUser u ++ serTail us)) =
      '\n' :: ' ' :: ' ' :: (serUser u ++ serTail us) from rfl] at h
    show (match parseItems (('\n' :: ' ' :: ' ' :: (serUser u ++ serTail us)).length + 1)
        ('\n' :: ' ' :: ' ' :: (serUser u ++ serTail us)) with
      | some (us, l2) => if skipWs l2 = [] then some us else none
      | none => none) = some (u :: us)
    rw [h]
    rfl

/-! ## The shape of the id search and in-place mutation helpers -/

theorem updateById_eq_some (q : String) (b : Body) :
    ∀ (us : List User) (p : User × List User),
      updateById q b us = some p →
      ∃ pre u post, us = pre ++ u :: post ∧ idEq u.id q = true ∧
        (∀ v ∈ pre, idEq v.id q = false) ∧
        p.1 = updateFields b u ∧ p.2 = pre ++ updateFields b u :: post := by
  intro us
  induction us with
  | nil => intro p h; simp [updateById] at h
  | cons w ws ih =>
    intro p h
    by_cases hw : idEq w.id q = true
    · rw [updateById, if_pos hw] at h
      obtain rfl : (updateFields b w, updateFields b w :: ws) = p := by
        simpa using h
      exact ⟨[], w, ws, by simp, hw, by simp, by simp, by simp⟩
    · rw [updateById, if_neg hw] at h
      cases hws : updateById q b ws with
      | none => rw [hws] at h; simp at h
      | some p' =>
        rw [hws] at h
        obtain rfl : (p'.1, w :: p'.2) = p := by simpa using h
        obtain ⟨pre, u, post, hsplit, hu, hpre, h1, h2⟩ := ih p' hws
        refine ⟨w :: pre, u, post, by simp [hsplit], hu, ?_, by simpa using h1,
          by simp [h2]⟩
        intro v hv
        rcases List.mem_cons.1 hv with rfl | hv'
        · simpa using hw
        · exact hpre v hv'

theorem deleteById_eq_some (q : String) :
    ∀ (us : List User) (p : User × List User),
      deleteById q us = some p →
      ∃ pre u post, us = pre ++ u :: post ∧ idEq u.id q = true ∧
        (∀ v ∈ pre, idEq v.id q = false) ∧
        p.1 = u ∧ p.2 = pre ++ post := by
  intro us
  induction us with
  | nil => intro p h; simp [deleteById] at h
  | cons w ws ih =>
    intro p h
    by_cases hw : idEq w.id q = true
    · rw [deleteById, if_pos hw] at h
      obtain rfl : (w, ws) = p := by simpa using h
      exact ⟨[], w, ws, by simp, hw, by simp, by simp, by simp⟩
    · rw [deleteById, if_neg hw] at h
      cases hws : deleteById q ws with
      | none => rw [hws] at h; simp at h
      | some p' =>
        rw [hws] at h
        obtain rfl : (p'.1, w :: p'.2) = p := by simpa using h
        obtain ⟨pre, u, post, hsplit, hu, hpre, h1, h2⟩ := ih p' hws
        refine ⟨w :: pre, u, post, by simp [hsplit], hu, ?_, by simpa using h1,
          by simp [h2]⟩
        intro v hv
        rcases List.mem_cons.1 hv with rfl | hv'
        · simpa using hw
        · exact hpre v hv'

theorem updateById_append (q : String) (b : Body) (pre : List User) (u : User)
    (post : List User) (hpre : ∀ v ∈ pre, idEq v.id q = false)
    (hu : idEq u.id q = true) :
    updateById q b (pre ++ u :: post) =
      some (updateFields b u, pre ++ updateFields b u :: post) := by
  induction pre with
  | nil => simp [updateById, hu]
  | cons w ws ih =>
    have hw : idEq w.id q = false := hpre w (by simp)
    have ih' := ih (fun v hv => hpre v (by simp [hv]))
    simp [updateById, hw, ih']

theorem deleteById_append (q : String) (pre : List User) (u : User)
    (post : List User) (hpre : ∀ v ∈ pre, idEq v.id q = false)
    (hu : idEq u.id q = true) :
    deleteById q (pre ++ u :: post) = some (u, pre ++ post) := by
  induction pre with
  | nil => simp [deleteById, hu]
  | cons w ws ih =>
    have hw : idEq w.id q = false := hpre w (by simp)
    have ih' := ih (fun v hv => hpre v (by simp [hv]))
    simp [deleteById, hw, ih']

/-! ## The id assigned on creation is fresh -/

theorem init_le_foldl_max (l : List Nat) : ∀ a : Nat, a ≤ l.foldl max a := by
  induction l with
  | nil => intro a; simp
  | cons b t ih =>
    intro a
    calc a ≤ max a b := le_max_left a b
      _ ≤ t.foldl max (max a b) := ih (max a b)

theorem le_foldl_max (l : List Nat) : ∀ (a : Nat), ∀ x ∈ l, x ≤ l.foldl max a := by
  induction l with
  | nil => intro a x hx; simp at hx
  | cons b t ih =>
    intro a x hx
    rcases List.mem_cons.1 hx with rfl | hx'
    · calc x ≤ max a x := le_max_right a x
        _ ≤ t.foldl max (max a x) := init_le_foldl_max t (max a x)
    · exact ih (max a b) x hx'

theorem foldl_max_mem (l : List Nat) : ∀ a : Nat, l.foldl max a ∈ a :: l := by
  induction l with
  | nil => intro a; simp
  | cons b t ih =>
    intro a
    rcases List.mem_cons.1 (ih (max a b)) with h | h
    · rcases max_choice a b with h' | h'
      · rw [List.foldl_cons, h, h']; simp
      · rw [List.foldl_cons, h, h']; simp
    · simp [List.foldl_cons, List.mem_cons.2 (Or.inr (List.mem_cons.2 (Or.inr h)))]

theorem lt_nextId (us : List User) (v : User) (hv : v ∈ us) : v.id < nextId us := by
  have hlen : 0 < us.length := List.length_pos.2 (by rintro rfl; simp at hv)
  rw [nextId, if_pos hlen]
  have : v.id ≤ (us.map (fun u => u.id)).foldl max 0 :=
    le_foldl_max _ 0 v.id (List.mem_map.2 ⟨v, hv, rfl⟩)
  omega

theorem nextId_eq_succ_mem (us : List User) (h : us ≠ []) :
    ∃ v ∈ us, nextId us = v.id + 1 := by
  have hlen : 0 < us.length := List.length_pos.2 h
  rcases List.mem_cons.1 (foldl_max_mem (us.map (fun u => u.id)) 0) with h0 | hmem
  · obtain ⟨w, ws, rfl⟩ := List.exists_cons_of_ne_nil h
    have hw : w.id ≤ (List.map (fun u => u.id) (w :: ws)).foldl max 0 :=
      le_foldl_max _ 0 w.id (by simp)
    refine ⟨w, by simp, ?_⟩
    rw [nextId, if_pos hlen]
    omega
  · obtain ⟨v, hv, hid⟩ := List.mem_map.1 hmem
    exact ⟨v, hv, by rw [nextId, if_pos hlen, hid]⟩

/-! ## Exhaustive shape analysis of one request -/

theorem handle_cases (st : ServerState) (req : Request) :
    ((handle st req).2 = st ∧ (handle st req).1.status ≠ 201 ∧
      ((handle st req).1.status = 200 →
        req.method = Method.options ∨ req.method = Method.get) ∧
      ((handle st req).1.status = 401 → isAuthenticated req.authorization = false)) ∨
    (∃ u : User,
      (handle st req).1 = ⟨201, RespBody.userB u⟩ ∧ u.id = nextId st.users ∧
      (handle st req).2.users = st.users ++ [u] ∧
      (handle st req).2.file = serializeUsers (st.users ++ [u]) ∧
      req.method = Method.post) ∨
    (∃ pre u post, st.users = pre ++ u :: post ∧
      (handle st req).1 = ⟨200, RespBody.userB (updateFields req.body u)⟩ ∧
      (handle st req).2.users = pre ++ updateFields req.body u :: post ∧
      (handle st req).2.file = serializeUsers (pre ++ updateFields req.body u :: post) ∧
      req.method = Method.put) ∨
    (∃ pre u post, st.users = pre ++ u :: post ∧
      (handle st req).1 = ⟨200, RespBody.deletedB "User deleted" u⟩ ∧
      (handle st req).2.users = pre ++ post ∧
      (handle st req).2.file = serializeUsers (pre ++ post) ∧
      req.method = Method.delete) := by
  by_cases hopt : req.method = Method.options
  · have hH : handle st req = (⟨200, RespBody.empty⟩, st) := by
      simp [handle, hopt]
    exact Or.inl ⟨by rw [hH], by rw [hH]; simp,
      fun _ => Or.inl hopt, by rw [hH]; intro h; simp at h⟩
  cases hauth : isAuthenticated req.authorization with
  | false =>
    have hH : handle st req =
        (⟨401, RespBody.errorB "Unauthorized. Use Bearer token."⟩, st) := by
      simp [handle, hopt, hauth]
    exact Or.inl ⟨by rw [hH], by rw [hH]; simp,
      by rw [hH]; intro h; simp at h, fun _ => rfl⟩
  | true =>
    by_cases hpath : req.pathname = "/users"
    · by_cases hget : req.method = Method.get
      · cases hq : truthyStr req.queryId with
        | true =>
          cases hfind : st.users.find? (fun u => idEq u.id (req.queryId.getD "")) with
          | some u =>
            have hH : handle st req = (⟨200, RespBody.userB u⟩, st) := by
              simp [handle, hopt, hauth, hpath, hget, hq, hfind]
            exact Or.inl ⟨by rw [hH], by rw [hH]; simp, fun _ => Or.inr hget,
              by rw [hH]; intro h; simp at h⟩
          | none =>
            have hH : handle st req =
                (⟨404, RespBody.errorB "User not found"⟩, st) := by
              simp [handle, hopt, hauth, hpath, hget, hq, hfind]
            exact Or.inl ⟨by rw [hH], by rw [hH]; simp,
              by rw [hH]; intro h; simp at h,
              by rw [hH]; intro h; simp at h⟩
        | false =>
          have hH : handle st req = (⟨200, RespBody.usersB st.users⟩, st) := by
            simp [handle, hopt, hauth, hpath, hget, hq]
          exact Or.inl ⟨by rw [hH], by rw [hH]; simp, fun _ => Or.inr hget,
            by rw [hH]; intro h; simp at h⟩
      · by_cases hpost : req.method = Method.post
        · cases hval : (!truthyStr req.body.name || !truthyStr req.body.email) with
          | true =>
            have hH : handle st req =
                (⟨400, RespBody.errorB "Name and email are required"⟩, st) := by
              simp [handle, hopt, hauth, hpath, hget, hpost, hval]
            exact Or.inl ⟨by rw [hH], by rw [hH]; simp,
              by rw [hH]; intro h; simp at h,
              by rw [hH]; intro h; simp at h⟩
          | false =>
            refine Or.inr (Or.inl ?_)
            refine ⟨⟨nextId st.users, req.body.name.getD "", req.body.email.getD "",
                if truthyStr req.body.role then req.body.role.getD "" else "viewer"⟩,
              ?_, rfl, ?_, ?_, hpost⟩ <;>
              simp [handle, hopt, hauth, hpath, hget, hpost, hval]
        · by_cases hput : req.method = Method.put
          · cases hq : truthyStr req.queryId with
            | false =>
              have hH : handle st req =
                  (⟨400, RespBody.errorB "User ID is required"⟩, st) := by
                simp [handle, hopt, hauth, hpath, hget, hpost, hput, hq]
              exact Or.inl ⟨by rw [hH], by rw [hH]; simp,
                by rw [hH]; intro h; simp at h,
                by rw [hH]; intro h; simp at h⟩
            | true =>
              cases hupd : updateById (req.queryId.getD "") req.body st.users with
              | none =>
                have hH : handle st req =
                    (⟨404, RespBody.errorB "User not found"⟩, st) := by
                  simp [handle, hopt, hauth, hpath, hget, hpost, hput, hq, hupd]
                exact Or.inl ⟨by rw [hH], by rw [hH]; simp,
                  by rw [hH]; intro h; simp at h,
                  by rw [hH]; intro h; simp at h⟩
              | some p =>
                obtain ⟨u', users'⟩ := p
                have hH : handle st req =
                    (⟨200, RespBody.userB u'⟩, ⟨users', serializeUsers users'⟩) := by
                  simp [handle, hopt, hauth, hpath, hget, hpost, hput, hq, hupd]
                obtain ⟨pre, u, post, hsplit, hu, hpre, h1, h2⟩ :=
                  updateById_eq_some _ _ _ _ hupd
                simp only at h1 h2
                subst h1
                subst h2
                exact Or.inr (Or.inr (Or.inl ⟨pre, u, post, hsplit, by rw [hH],
                  by rw [hH], by rw [hH], hput⟩))
          · by_cases hdel : req.method = Method.delete
            · cases hq : truthyStr req.queryId with
              | false =>
                have hH : handle st req =
                    (⟨400, RespBody.errorB "User ID is required"⟩, st) := by
                  simp [handle, hopt, hauth, hpath, hget, hpost, hput, hdel, hq]
                exact Or.inl ⟨by rw [hH], by rw [hH]; simp,
                  by rw [hH]; intro h; simp at h,
                  by rw [hH]; intro h; simp at h⟩
              | true =>
                cases hdelr : deleteById (req.queryId.getD "") st.users with
                | none =>
                  have hH : handle st req =
                      (⟨404, RespBody.errorB "User not found"⟩, st) := by
                    simp [handle, hopt, hauth, hpath, hget, hpost, hput, hdel, hq, hdelr]
                  exact Or.inl ⟨by rw [hH], by rw [hH]; simp,
                    by rw [hH]; intro h; simp at h,
                    by rw [hH]; intro h; simp at h⟩
                | some p =>
                  obtain ⟨u', users'⟩ := p
                  have hH : handle st req = (⟨200, RespBody.deletedB "User deleted" u'⟩,
                      ⟨users', serializeUsers users'⟩) := by
                    simp [handle, hopt, hauth, hpath, hget, hpost, hput, hdel, hq, hdelr]
                  obtain ⟨pre, u, post, hsplit, hu, hpre, h1, h2⟩ :=
                    deleteById_eq_some _ _ _ hdelr
                  simp only at h1 h2
                  subst h1
                  subst h2
                  exact Or.inr (Or.inr (Or.inr ⟨pre, u', post, hsplit, by rw [hH],
                    by rw [hH], by rw [hH], hdel⟩))
            · have hH : handle st req =
                  (⟨405, RespBody.errorB "Method not allowed"⟩, st) := by
                simp [handle, hopt, hauth, hpath, hget, hpost, hput, hdel]
              exact Or.inl ⟨by rw [hH], by rw [hH]; simp,
                by rw [hH]; intro h; simp at h,
                by rw [hH]; intro h; simp at h⟩
    · have hH : handle st req = (⟨404, RespBody.errorB "Route not found"⟩, st) := by
        simp [handle, hopt, hauth, hpath]
      exact Or.inl ⟨by rw [hH], by rw [hH]; simp,
        by rw [hH]; intro h; simp at h,
        by rw [hH]; intro h; simp at h⟩

/-! ## The claims -/

theorem idEq_unique {a b : Nat} {q : String} (ha : idEq a q = true)
    (hb : idEq b q = false) : b ≠ a := by
  unfold idEq at ha hb
  rw [beq_iff_eq] at ha
  intro hba
  rw [hba, ha] at hb
  simp at hb

/-- C1: a successful create assigns the new record the id one greater than
the maximum id present at creation time, or 1 when the collection is empty;
the record is appended at the end of the collection and returned with
status 201. -/
theorem create_assigns_max_plus_one (st : ServerState) (req : Request)
    (hm : req.method = Method.post) (hp : req.pathname = "/users")
    (ha : isAuthenticated req.authorization = true)
    (hn : truthyStr req.body.name = true) (he : truthyStr req.body.email = true) :
    ∃ u : User,
      (handle st req).1 = ⟨201, RespBody.userB u⟩ ∧
      (handle st req).2.users = st.users ++ [u] ∧
      (st.users = [] → u.id = 1) ∧
      (st.users ≠ [] →
        (∀ v ∈ st.users, v.id < u.id) ∧ ∃ v ∈ st.users, u.id = v.id + 1) := by
  have hH : handle st req =
      (⟨201, RespBody.userB ⟨nextId st.users, req.body.name.getD "",
        req.body.email.getD "",
        if truthyStr req.body.role then req.body.role.getD "" else "viewer"⟩⟩,
      ⟨st.users ++ [⟨nextId st.users, req.body.name.getD "", req.body.email.getD "",
        if truthyStr req.body.role then req.body.role.getD "" else "viewer"⟩],
        serializeUsers (st.users ++ [⟨nextId st.users, req.body.name.getD "",
          req.body.email.getD "",
          if truthyStr req.body.role then req.body.role.getD "" else "viewer"⟩])⟩) := by
    simp [handle, hm, hp, ha, hn, he]
  refine ⟨_, by rw [hH], by rw [hH], ?_, ?_⟩
  · intro hemp
    show nextId st.users = 1
    rw [nextId, hemp]
    simp
  · intro hne
    exact ⟨fun v hv => lt_nextId st.users v hv, nextId_eq_succ_mem st.users hne⟩

/-- C1 witness: creating a record on the sample state with two records of
ids 1 and 2 yields a 201 response, appends the record, and assigns an id one
more than some existing id while exceeding all existing ids. -/
theorem create_assigns_max_plus_one_witness :
    ∃ u : User,
      (handle sampleState createReq).1 = ⟨201, RespBody.userB u⟩ ∧
      (handle sampleState createReq).2.users = sampleState.users ++ [u] ∧
      (sampleState.users = [] → u.id = 1) ∧
      (sampleState.users ≠ [] →
        (∀ v ∈ sampleState.users, v.id < u.id) ∧
        ∃ v ∈ sampleState.users, u.id = v.id + 1) :=
  create_assigns_max_plus_one sampleState createReq rfl rfl (by decide) (by decide)
    (by decide)

/-- C4: an OPTIONS request is always answered 200 with an empty body and an
unchanged state, with no authentication check; every other request is
answered 401 exactly when its Authorization header differs from the literal
string Bearer followed by a space and the static token, regardless of path
or method validity. -/
theorem auth_gate (st : ServerState) (req : Request) :
    (req.method = Method.options → handle st req = (⟨200, RespBody.empty⟩, st)) ∧
    (req.method ≠ Method.options →
      ((handle st req).1.status = 401 ↔
        req.authorization ≠ some ("Bearer " ++ authToken))) := by
  constructor
  · intro h
    simp [handle, h]
  · intro hno
    constructor
    · intro h401
      rcases handle_cases st req with ⟨-, -, -, h4⟩ | ⟨u, hr, -⟩ |
        ⟨pre, u, post, -, hr, -⟩ | ⟨pre, u, post, -, hr, -⟩
      · intro heq
        have hfalse := h4 h401
        rw [isAuthenticated, heq] at hfalse
        simp at hfalse
      · rw [hr] at h401; simp at h401
      · rw [hr] at h401; simp at h401
      · rw [hr] at h401; simp at h401
    · intro hne
      have hauth : isAuthenticated req.authorization = false := by
        rw [isAuthenticated]
        simp [hne]
      simp [handle, hno, hauth]

/-- C4 witness: on the sample state, the preflight request is answered 200
with an empty body, and the request with the wrong bearer token satisfies
the 401 equivalence. -/
theorem auth_gate_witness :
    handle sampleState optionsReq = (⟨200, RespBody.empty⟩, sampleState) ∧
    ((handle sampleState badAuthReq).1.status = 401 ↔
      badAuthReq.authorization ≠ some ("Bearer " ++ authToken)) :=
  ⟨(auth_gate sampleState optionsReq).1 rfl,
    (auth_gate sampleState badAuthReq).2 (by decide)⟩

/-- C8: whenever a mutating operation completes successfully (a create
answered 201, or an update or delete answered 200), the persisted file
contents equal the serialization of the entire in-memory collection as it
stands after the operation: a full rewrite, not an append or a patch. -/
theorem mutation_persists_full_rewrite (st : ServerState) (req : Request)
    (h : (handle st req).1.status = 201 ∨
      ((req.method = Method.put ∨ req.method = Method.delete) ∧
        (handle st req).1.status = 200)) :
    (handle st req).2.file = serializeUsers ((handle st req).2.users) := by
  rcases handle_cases st req with ⟨hst, hs201, hs200, -⟩ | ⟨u, hr, -, hu2, hu3, -⟩ |
    ⟨pre, u, post, -, hr, h2, h3, -⟩ | ⟨pre, u, post, -, hr, h2, h3, -⟩
  · rcases h with h201 | ⟨hmeth, h200⟩
    · exact absurd h201 hs201
    · rcases hs200 h200 with hopt | hget
      · rcases hmeth with hm | hm <;> rw [hm] at hopt <;> simp at hopt
      · rcases hmeth with hm | hm <;> rw [hm] at hget <;> simp at hget
  · rw [hu3, hu2]
  · rw [h3, h2]
  · rw [h3, h2]

/-- C8 witness: the successful deletion of id 1 from the sample state leaves
the file equal to the serialization of the remaining collection. -/
theorem mutation_persists_full_rewrite_witness :
    (handle sampleState deleteReq).2.file =
      serializeUsers ((handle sampleState deleteReq).2.users) :=
  mutation_persists_full_rewrite sampleState deleteReq
    (Or.inr ⟨Or.inr rfl, by decide⟩)

/-- C10: every response with status 400, 401, 404, or 405 leaves the server
state, both the in-memory collection and the persisted file, exactly as it
was before the request. -/
theorem error_responses_preserve_state (st : ServerState) (req : Request)
    (h : (handle st req).1.status = 400 ∨ (handle st req).1.status = 401 ∨
      (handle st req).1.status = 404 ∨ (handle st req).1.status = 405) :
    (handle st req).2 = st := by
  rcases handle_cases st req with ⟨hst, -, -, -⟩ | ⟨u, hr, -⟩ |
    ⟨pre, u, post, -, hr, -⟩ | ⟨pre, u, post, -, hr, -⟩
  · exact hst
  · rw [hr] at h; simp at h
  · rw [hr] at h; simp at h
  · rw [hr] at h; simp at h

/-- C10 witness: the unauthorized request leaves the sample state unchanged. -/
theorem error_responses_preserve_state_witness :
    (handle sampleState badAuthReq).2 = sampleState :=
  error_responses_preserve_state sampleState badAuthReq
    (Or.inr (Or.inl (by decide)))

theorem updateFields_id (b : Body) (u : User) : (updateFields b u).id = u.id := rfl

theorem handle_preserves_nodup (st : ServerState) (req : Request)
    (h : (st.users.map (fun u => u.id)).Nodup) :
    (((handle st req).2.users).map (fun u => u.id)).Nodup := by
  rcases handle_cases st req with ⟨hst, -, -, -⟩ | ⟨u, -, huid, hu2, -⟩ |
    ⟨pre, u, post, hsplit, -, h2, -⟩ | ⟨pre, u, post, hsplit, -, h2, -⟩
  · rw [hst]; exact h
  · rw [hu2, List.map_append]
    refine List.Nodup.append h (by simp) ?_
    intro a ha hmem
    simp only [List.map_cons, List.map_nil, List.mem_singleton] at hmem
    obtain ⟨v, hv, hva⟩ := List.mem_map.1 ha
    have hlt := lt_nextId st.users v hv
    omega
  · rw [h2]
    rw [hsplit] at h
    simp only [List.map_append, List.map_cons] at h ⊢
    rw [updateFields_id]
    exact h
  · rw [h2]
    rw [hsplit] at h
    have hsub : (pre ++ post).Sublist (pre ++ u :: post) :=
      List.Sublist.append_left (List.sublist_cons_self u post) pre
    exact List.Nodup.sublist (List.Sublist.map _ hsub) h

theorem run_preserves_nodup (reqs : List Request) : ∀ st : ServerState,
    (st.users.map (fun u => u.id)).Nodup →
    (((run st reqs).users).map (fun u => u.id)).Nodup := by
  induction reqs with
  | nil => intro st h; exact h
  | cons r rs ih => intro st h; exact ih ((handle st r).2) (handle_preserves_nodup st r h)

/-- C6: starting from a collection with pairwise distinct ids, any sequence
of requests preserves distinctness of ids; moreover every single request
either leaves the collection unchanged, appends one new record at the end,
replaces one record in place without changing its id, or removes one record,
so no operation ever changes the id of an existing record. -/
theorem ids_unique_and_immutable (st : ServerState) (reqs : List Request)
    (h : (st.users.map (fun u => u.id)).Nodup) :
    (((run st reqs).users).map (fun u => u.id)).Nodup ∧
    (∀ (st' : ServerState) (r : Request),
      ((handle st' r).2.users = st'.users) ∨
      (∃ u, (handle st' r).2.users = st'.users ++ [u]) ∨
      (∃ pre u post u', st'.users = pre ++ u :: post ∧ u'.id = u.id ∧
        (handle st' r).2.users = pre ++ u' :: post) ∨
      (∃ pre u post, st'.users = pre ++ u :: post ∧
        (handle st' r).2.users = pre ++ post)) := by
  refine ⟨run_preserves_nodup reqs st h, ?_⟩
  intro st' r
  rcases handle_cases st' r with ⟨hst, -, -, -⟩ | ⟨u, -, -, hu2, -⟩ |
    ⟨pre, u, post, hsplit, -, h2, -⟩ | ⟨pre, u, post, hsplit, -, h2, -⟩
  · exact Or.inl (by rw [hst])
  · exact Or.inr (Or.inl ⟨u, hu2⟩)
  · exact Or.inr (Or.inr (Or.inl ⟨pre, u, post, updateFields r.body u, hsplit,
      updateFields_id r.body u, h2⟩))
  · exact Or.inr (Or.inr (Or.inr ⟨pre, u, post, hsplit, h2⟩))

/-- C6 witness: the sample state has distinct ids, they stay distinct across
a create followed by a delete, and the create request falls under one of the
four operation shapes. -/
theorem ids_unique_and_immutable_witness :
    (((run sampleState [createReq, deleteReq]).users).map (fun u => u.id)).Nodup ∧
    (((handle sampleState createReq).2.users = sampleState.users) ∨
      (∃ u, (handle sampleState createReq).2.users = sampleState.users ++ [u]) ∨
      (∃ pre u post u', sampleState.users = pre ++ u :: post ∧ u'.id = u.id ∧
        (handle sampleState createReq).2.users = pre ++ u' :: post) ∨
      (∃ pre u post, sampleState.users = pre ++ u :: post ∧
        (handle sampleState createReq).2.users = pre ++ post)) :=
  ⟨(ids_unique_and_immutable sampleState [createReq, deleteReq] (by decide)).1,
    (ids_unique_and_immutable sampleState [createReq, deleteReq] (by decide)).2
      sampleState createReq⟩

theorem absent_preserved (st : ServerState) (d : Nat)
    (h : ∀ v ∈ st.users, v.id ≠ d) (r : Request) :
    (∀ v ∈ (handle st r).2.users, v.id ≠ d) ∨
    ((handle st r).1.status = 201 ∧
      ∃ w, (handle st r).1.body = RespBody.userB w ∧ w.id = d) := by
  rcases handle_cases st r with ⟨hst, -, -, -⟩ | ⟨u, hr, -, hu2, -⟩ |
    ⟨pre, u, post, hsplit, -, h2, -⟩ | ⟨pre, u, post, hsplit, -, h2, -⟩
  · left; rw [hst]; exact h
  · by_cases hid : u.id = d
    · right
      exact ⟨by rw [hr], u, by rw [hr], hid⟩
    · left
      rw [hu2]
      intro v hv
      rcases List.mem_append.1 hv with hv' | hv'
      · exact h v hv'
      · rw [List.mem_singleton.1 hv']
        exact hid
  · left
    rw [h2]
    intro v hv
    rcases List.mem_append.1 hv with hv' | hv'
    · exact h v (by rw [hsplit]; exact List.mem_append.2 (Or.inl hv'))
    · rcases List.mem_cons.1 hv' with rfl | hv''
      · rw [updateFields_id]
        exact h u (by rw [hsplit]; simp)
      · exact h v (by rw [hsplit]; simp [hv''])
  · left
    rw [h2]
    intro v hv
    rcases List.mem_append.1 hv with hv' | hv'
    · exact h v (by rw [hsplit]; exact List.mem_append.2 (Or.inl hv'))
    · exact h v (by rw [hsplit]; simp [hv'])

/-- C5: deleting an existing id (from a collection with distinct ids) removes
exactly the one record with that id, answers 200 with the removed record,
leaves a collection from which that id is absent, which is what any
subsequent list request returns; and the id stays absent after any further
request except one that answers 201 with a created record of that id. -/
theorem delete_removes_exactly_one (st : ServerState) (req : Request)
    (pre post : List User) (u : User)
    (hm : req.method = Method.delete) (hp : req.pathname = "/users")
    (ha : isAuthenticated req.authorization = true)
    (hq : truthyStr req.queryId = true)
    (hsplit : st.users = pre ++ u :: post)
    (hpre : ∀ v ∈ pre, idEq v.id (req.queryId.getD "") = false)
    (hu : idEq u.id (req.queryId.getD "") = true)
    (hnodup : (st.users.map (fun v => v.id)).Nodup) :
    (handle st req).1 = ⟨200, RespBody.deletedB "User deleted" u⟩ ∧
    (handle st req).2.users = pre ++ post ∧
    (handle st req).2.users.length + 1 = st.users.length ∧
    (∀ v ∈ (handle st req).2.users, v.id ≠ u.id) ∧
    (∀ greq : Request, greq.method = Method.get → greq.pathname = "/users" →
      isAuthenticated greq.authorization = true → truthyStr greq.queryId = false →
      handle (handle st req).2 greq =
        (⟨200, RespBody.usersB ((handle st req).2.users)⟩, (handle st req).2)) ∧
    (∀ r : Request,
      (∀ v ∈ (handle ((handle st req).2) r).2.users, v.id ≠ u.id) ∨
      ((handle ((handle st req).2) r).1.status = 201 ∧
        ∃ w, (handle ((handle st req).2) r).1.body = RespBody.userB w ∧
          w.id = u.id)) := by
  have hdel := deleteById_append (req.queryId.getD "") pre u post hpre hu
  have hH : handle st req = (⟨200, RespBody.deletedB "User deleted" u⟩,
      ⟨pre ++ post, serializeUsers (pre ++ post)⟩) := by
    simp [handle, hm, hp, ha, hq, hsplit, hdel]
  have habsent : ∀ v ∈ pre ++ post, v.id ≠ u.id := by
    have hnodup' := hnodup
    rw [hsplit] at hnodup'
    simp only [List.map_append, List.map_cons] at hnodup'
    have hpost : u.id ∉ post.map (fun v => v.id) :=
      (List.nodup_cons.1 ((List.nodup_append.1 hnodup').2.1)).1
    intro v hv
    rcases List.mem_append.1 hv with hv' | hv'
    · exact idEq_unique hu (hpre v hv')
    · intro heq
      exact hpost (heq ▸ List.mem_map.2 ⟨v, hv', rfl⟩)
  refine ⟨by rw [hH], by rw [hH], ?_, ?_, ?_, ?_⟩
  · rw [hH, hsplit]
    simp
    omega
  · rw [hH]
    exact habsent
  · intro greq h1 h2 h3 h4
    simp [handle, h1, h2, h3, h4]
  · intro r
    have habsent' : ∀ v ∈ (handle st req).2.users, v.id ≠ u.id := by
      rw [hH]; exact habsent
    exact absent_preserved ((handle st req).2) u.id habsent' r

/-- C5 witness: deleting id 1 from the sample state removes exactly the first
sample record, returns it, and its id is gone from the resulting collection. -/
theorem delete_removes_exactly_one_witness :
    (handle sampleState deleteReq).1 =
      ⟨200, RespBody.deletedB "User deleted" sampleUser⟩ ∧
    (handle sampleState deleteReq).2.users = [] ++ [sampleUser2] ∧
    (handle sampleState deleteReq).2.users.length + 1 = sampleState.users.length ∧
    (∀ v ∈ (handle sampleState deleteReq).2.users, v.id ≠ sampleUser.id) ∧
    (∀ greq : Request, greq.method = Method.get → greq.pathname = "/users" →
      isAuthenticated greq.authorization = true → truthyStr greq.queryId = false →
      handle (handle sampleState deleteReq).2 greq =
        (⟨200, RespBody.usersB ((handle sampleState deleteReq).2.users)⟩,
          (handle sampleState deleteReq).2)) ∧
    (∀ r : Request,
      (∀ v ∈ (handle ((handle sampleState deleteReq).2) r).2.users,
        v.id ≠ sampleUser.id) ∨
      ((handle ((handle sampleState deleteReq).2) r).1.status = 201 ∧
        ∃ w, (handle ((handle sampleState deleteReq).2) r).1.body =
          RespBody.userB w ∧ w.id = sampleUser.id)) :=
  delete_removes_exactly_one sampleState deleteReq [] [sampleUser2] sampleUser
    rfl rfl (by decide) (by decide) rfl (by decide) (by decide) (by decide)

/-- C2 counterexample: the body of this update maps the name key to the empty
string, so the name field is present in the partial input, yet the update
answers 200 and leaves the stored record's name at its old value instead of
applying the present field. -/
theorem update_present_empty_field_not_applied :
    cexPutReq.body.name = some "" ∧
    (handle sampleState cexPutReq).1 = ⟨200, RespBody.userB sampleUser⟩ ∧
    (handle sampleState cexPutReq).2.users = [sampleUser, sampleUser2] ∧
    sampleUser.name = "Ana" :=
  ⟨rfl, rfl, rfl, rfl⟩

/-- C2 (amended): for every update of an existing id, the response is 200
with the updated record; exactly the truthy fields of the partial input —
those present with a non-empty string value — are applied, every other field
of the record and every other record is left untouched, and an update with an
empty body changes no records. -/
theorem update_applies_truthy_fields (st : ServerState) (req : Request)
    (pre post : List User) (u : User)
    (hm : req.method = Method.put) (hp : req.pathname = "/users")
    (ha : isAuthenticated req.authorization = true)
    (hq : truthyStr req.queryId = true)
    (hsplit : st.users = pre ++ u :: post)
    (hpre : ∀ v ∈ pre, idEq v.id (req.queryId.getD "") = false)
    (hu : idEq u.id (req.queryId.getD "") = true) :
    (handle st req).1 = ⟨200, RespBody.userB (updateFields req.body u)⟩ ∧
    (handle st req).2.users = pre ++ updateFields req.body u :: post ∧
    (updateFields req.body u).id = u.id ∧
    ((req.body.name = none ∨ req.body.name = some "") →
      (updateFields req.body u).name = u.name) ∧
    (∀ s : String, req.body.name = some s → s ≠ "" →
      (updateFields req.body u).name = s) ∧
    ((req.body.email = none ∨ req.body.email = some "") →
      (updateFields req.body u).email = u.email) ∧
    (∀ s : String, req.body.email = some s → s ≠ "" →
      (updateFields req.body u).email = s) ∧
    ((req.body.role = none ∨ req.body.role = some "") →
      (updateFields req.body u).role = u.role) ∧
    (∀ s : String, req.body.role = some s → s ≠ "" →
      (updateFields req.body u).role = s) ∧
    (req.body = ⟨none, none, none⟩ → (handle st req).2.users = st.users) := by
  have hupd := updateById_append (req.queryId.getD "") req.body pre u post hpre hu
  have hH : handle st req = (⟨200, RespBody.userB (updateFields req.body u)⟩,
      ⟨pre ++ updateFields req.body u :: post,
        serializeUsers (pre ++ updateFields req.body u :: post)⟩) := by
    simp [handle, hm, hp, ha, hq, hsplit, hupd]
  refine ⟨by rw [hH], by rw [hH], rfl, ?_, ?_, ?_, ?_, ?_, ?_, ?_⟩
  · rintro (h | h) <;> simp [updateFields, h, truthyStr]
  · intro s hs hne
    simp [updateFields, hs, truthyStr, hne]
  · rintro (h | h) <;> simp [updateFields, h, truthyStr]
  · intro s hs hne
    simp [updateFields, hs, truthyStr, hne]
  · rintro (h | h) <;> simp [updateFields, h, truthyStr]
  · intro s hs hne
    simp [updateFields, hs, truthyStr, hne]
  · intro hb
    rw [hH]
    show pre ++ updateFields req.body u :: post = st.users
    rw [hb, show updateFields ⟨none, none, none⟩ u = u from rfl, hsplit]

/-- C2 witness: updating the role of the record with id 2 in the sample
state answers 200 with the updated record and rewrites exactly that record in
place. -/
theorem update_applies_truthy_fields_witness :
    (handle sampleState updateRoleReq).1 =
      ⟨200, RespBody.userB (updateFields updateRoleReq.body sampleUser2)⟩ ∧
    (handle sampleState updateRoleReq).2.users =
      [sampleUser] ++ updateFields updateRoleReq.body sampleUser2 :: [] ∧
    (updateFields updateRoleReq.body sampleUser2).role = "editor" := by
  have h := update_applies_truthy_fields sampleState updateRoleReq [sampleUser] []
    sampleUser2 rfl rfl (by decide) (by decide) rfl (by decide) (by decide)
  exact ⟨h.1, h.2.1, h.2.2.2.2.2.2.2.2.1 "editor" rfl (by decide)⟩

/-- C3 counterexample: this POST body has both the name and the email key
present (the email mapped to the empty string), so by the claim it should be
answered 201 with a created record, but the service answers 400 and creates
nothing. -/
theorem post_present_empty_email_rejected :
    cexPostReq.body.name = some "X" ∧ cexPostReq.body.email = some "" ∧
    (handle sampleState cexPostReq).1 =
      ⟨400, RespBody.errorB "Name and email are required"⟩ ∧
    (handle sampleState cexPostReq).2 = sampleState :=
  ⟨rfl, rfl, rfl, rfl⟩

/-- C3 (amended): a POST is rejected 400 with the message Name and email are
required, creating nothing, unless both name and email are truthy (present
and non-empty); otherwise it answers 201 with the created record appended,
whose role equals the body's role when that is truthy and viewer when the
role is absent or empty. -/
theorem post_validation_truthiness (st : ServerState) (req : Request)
    (hm : req.method = Method.post) (hp : req.pathname = "/users")
    (ha : isAuthenticated req.authorization = true) :
    (¬(truthyStr req.body.name = true ∧ truthyStr req.body.email = true) →
      (handle st req).1 = ⟨400, RespBody.errorB "Name and email are required"⟩ ∧
      (handle st req).2 = st) ∧
    ((truthyStr req.body.name = true ∧ truthyStr req.body.email = true) →
      ∃ u : User, (handle st req).1 = ⟨201, RespBody.userB u⟩ ∧
        (handle st req).2.users = st.users ++ [u] ∧
        (∀ s : String, req.body.role = some s → s ≠ "" → u.role = s) ∧
        ((req.body.role = none ∨ req.body.role = some "") → u.role = "viewer")) := by
  constructor
  · intro hno
    have hval : (!truthyStr req.body.name || !truthyStr req.body.email) = true := by
      cases hn : truthyStr req.body.name <;> cases he : truthyStr req.body.email <;>
        simp_all
    have hH : handle st req =
        (⟨400, RespBody.errorB "Name and email are required"⟩, st) := by
      simp [handle, hm, hp, ha, hval]
    exact ⟨by rw [hH], by rw [hH]⟩
  · rintro ⟨hn, he⟩
    have hH : handle st req =
        (⟨201, RespBody.userB ⟨nextId st.users, req.body.name.getD "",
          req.body.email.getD "",
          if truthyStr req.body.role then req.body.role.getD "" else "viewer"⟩⟩,
        ⟨st.users ++ [⟨nextId st.users, req.body.name.getD "", req.body.email.getD "",
          if truthyStr req.body.role then req.body.role.getD "" else "viewer"⟩],
          serializeUsers (st.users ++ [⟨nextId st.users, req.body.name.getD "",
            req.body.email.getD "",
            if truthyStr req.body.role then req.body.role.getD "" else "viewer"⟩])⟩) := by
      simp [handle, hm, hp, ha, hn, he]
    refine ⟨_, by rw [hH], by rw [hH], ?_, ?_⟩
    · intro s hs hne
      show (if truthyStr req.body.role then req.body.role.getD "" else "viewer") = s
      simp [hs, truthyStr, hne]
    · intro h
      show (if truthyStr req.body.role then req.body.role.getD "" else "viewer") =
        "viewer"
      rcases h with h | h <;> simp [h, truthyStr]

/-- C3 witness: on the sample state, the body missing an email is rejected
400 with nothing created, and a valid body is answered 201 with the record
appended and the default role viewer. -/
theorem post_validation_truthiness_witness :
    ((handle sampleState ⟨Method.post, "/users", none, okAuth,
        ⟨some "X", none, none⟩⟩).1 =
      ⟨400, RespBody.errorB "Name and email are required"⟩ ∧
    (handle sampleState ⟨Method.post, "/users", none, okAuth,
        ⟨some "X", none, none⟩⟩).2 = sampleState) ∧
    (∃ u : User, (handle sampleState createReq).1 = ⟨201, RespBody.userB u⟩ ∧
      (handle sampleState createReq).2.users = sampleState.users ++ [u] ∧
      (∀ s : String, createReq.body.role = some s → s ≠ "" → u.role = s) ∧
      ((createReq.body.role = none ∨ createReq.body.role = some "") →
        u.role = "viewer")) :=
  ⟨(post_validation_truthiness sampleState
      ⟨Method.post, "/users", none, okAuth, ⟨some "X", none, none⟩⟩
      rfl rfl (by decide)).1 (by decide),
    (post_validation_truthiness sampleState createReq rfl rfl (by decide)).2
      ⟨by decide, by decide⟩⟩

/-- C9: field handling goes by JavaScript truthiness rather than key
presence: an update whose body maps name, email, or role to the empty string
leaves that field of the stored record unchanged; a POST whose name or email
is the empty string is rejected 400 with nothing created; and a POST whose
role is the empty string creates the record with role viewer. -/
theorem truthiness_semantics :
    (∀ (st : ServerState) (req : Request) (pre post : List User) (u : User),
      req.method = Method.put → req.pathname = "/users" →
      isAuthenticated req.authorization = true → truthyStr req.queryId = true →
      st.users = pre ++ u :: post →
      (∀ v ∈ pre, idEq v.id (req.queryId.getD "") = false) →
      idEq u.id (req.queryId.getD "") = true →
      (handle st req).2.users = pre ++ updateFields req.body u :: post ∧
      (req.body.name = some "" → (updateFields req.body u).name = u.name) ∧
      (req.body.email = some "" → (updateFields req.body u).email = u.email) ∧
      (req.body.role = some "" → (updateFields req.body u).role = u.role)) ∧
    (∀ (st : ServerState) (req : Request),
      req.method = Method.post → req.pathname = "/users" →
      isAuthenticated req.authorization = true →
      (req.body.name = some "" ∨ req.body.email = some "") →
      (handle st req).1 = ⟨400, RespBody.errorB "Name and email are required"⟩ ∧
      (handle st req).2 = st) ∧
    (∀ (st : ServerState) (req : Request),
      req.method = Method.post → req.pathname = "/users" →
      isAuthenticated req.authorization = true →
      truthyStr req.body.name = true → truthyStr req.body.email = true →
      req.body.role = some "" →
      ∃ u : User, (handle st req).1 = ⟨201, RespBody.userB u⟩ ∧
        u.role = "viewer") := by
  refine ⟨?_, ?_, ?_⟩
  · intro st req pre post u hm hp ha hq hsplit hpre hu
    have hupd := updateById_append (req.queryId.getD "") req.body pre u post hpre hu
    have hH : handle st req = (⟨200, RespBody.userB (updateFields req.body u)⟩,
        ⟨pre ++ updateFields req.body u :: post,
          serializeUsers (pre ++ updateFields req.body u :: post)⟩) := by
      simp [handle, hm, hp, ha, hq, hsplit, hupd]
    refine ⟨by rw [hH], ?_, ?_, ?_⟩ <;> intro h <;> simp [updateFields, h, truthyStr]
  · intro st req hm hp ha h
    have hval : (!truthyStr req.body.name || !truthyStr req.body.email) = true := by
      rcases h with h | h <;> simp [h, truthyStr]
    have hH : handle st req =
        (⟨400, RespBody.errorB "Name and email are required"⟩, st) := by
      simp [handle, hm, hp, ha, hval]
    exact ⟨by rw [hH], by rw [hH]⟩
  · intro st req hm hp ha hn he hrole
    have hH : handle st req =
        (⟨201, RespBody.userB ⟨nextId st.users, req.body.name.getD "",
          req.body.email.getD "",
          if truthyStr req.body.role then req.body.role.getD "" else "viewer"⟩⟩,
        ⟨st.users ++ [⟨nextId st.users, req.body.name.getD "", req.body.email.getD "",
          if truthyStr req.body.role then req.body.role.getD "" else "viewer"⟩],
          serializeUsers (st.users ++ [⟨nextId st.users, req.body.name.getD "",
            req.body.email.getD "",
            if truthyStr req.body.role then req.body.role.getD "" else "viewer"⟩])⟩) := by
      simp [handle, hm, hp, ha, hn, he]
    refine ⟨_, by rw [hH], ?_⟩
    show (if truthyStr req.body.role then req.body.role.getD "" else "viewer") =
      "viewer"
    simp [hrole, truthyStr]

/-- C9 witness: the empty-string name of the sample update body is not
applied, the POST with an empty email is rejected 400, and the POST with an
empty role creates a record whose role is viewer. -/
theorem truthiness_semantics_witness :
    ((handle sampleState cexPutReq).2.users =
      [] ++ updateFields cexPutReq.body sampleUser :: [sampleUser2] ∧
      (cexPutReq.body.name = some "" →
        (updateFields cexPutReq.body sampleUser).name = sampleUser.name) ∧
      (cexPutReq.body.email = some "" →
        (updateFields cexPutReq.body sampleUser).email = sampleUser.email) ∧
      (cexPutReq.body.role = some "" →
        (updateFields cexPutReq.body sampleUser).role = sampleUser.role)) ∧
    ((handle sampleState cexPostReq).1 =
      ⟨400, RespBody.errorB "Name and email are required"⟩ ∧
      (handle sampleState cexPostReq).2 = sampleState) ∧
    (∃ u : User, (handle sampleState emptyRoleReq).1 = ⟨201, RespBody.userB u⟩ ∧
      u.role = "viewer") :=
  ⟨truthiness_semantics.1 sampleState cexPutReq [] [sampleUser2] sampleUser
      rfl rfl (by decide) (by decide) rfl (by decide) (by decide),
    truthiness_semantics.2.1 sampleState cexPostReq rfl rfl (by decide)
      (Or.inr rfl),
    truthiness_semantics.2.2 sampleState emptyRoleReq rfl rfl (by decide)
      (by decide) (by decide) rfl⟩

end UserSvc
